import Mathlib

/-!
Verification of the frequency-visualization application
(src/frontend/src/App.jsx) against its natural-language specification.

The JavaScript source is shallowly embedded:
* the coordinate mapper (`binToY`, `yToFreq`) works over real numbers,
  with `Math.log10` rendered as `Real.logb 10` and `Math.pow 10`
  as real exponentiation;
* the spectral analyzer, replay selection, recording finalization, the
  importer and the hover handlers are computable functions over lists,
  integers and rationals (JS numbers at these call sites hold integer
  or small-rational values).
-/

namespace FreqApp

/-! ### FrequencyMapper (App.jsx lines 32-77) -/

/-- The single bin-to-frequency relation `binIndex * sampleRate / fftSize`
(real-valued form), hoisted from the local `binFreq` of `binToY`. -/
noncomputable def binFreqR (binIndex sampleRate fftSize : ℕ) : ℝ :=
  ((binIndex : ℝ) * (sampleRate : ℝ)) / (fftSize : ℝ)

/-- Translation of `binToY` (App.jsx 32-54): maps a bin index to a vertical
pixel position, `-1` meaning out of the 5-20000 Hz band.  `bufferLength`
is accepted and ignored exactly as in the source. -/
noncomputable def binToY (binIndex bufferLength height : ℕ) (logarithmic : Bool)
    (sampleRate fftSize : ℕ) : ℤ :=
  if binFreqR binIndex sampleRate fftSize < 5 ∨ 20000 < binFreqR binIndex sampleRate fftSize then
    -1
  else if logarithmic then
    ⌊(1 - (Real.logb 10 (binFreqR binIndex sampleRate fftSize) - Real.logb 10 5) /
        (Real.logb 10 20000 - Real.logb 10 5)) * ((height : ℝ) - 1)⌋
  else
    ⌊(1 - (binFreqR binIndex sampleRate fftSize - 5) / (20000 - 5)) * ((height : ℝ) - 1)⌋

/-- Translation of `yToFreq` (App.jsx 58-72): maps a vertical pixel position
back to a frequency, using the pixel-center offset `+0.5`. -/
noncomputable def yToFreq (y : ℝ) (height : ℕ) (logarithmic : Bool) : ℝ :=
  if logarithmic then
    (10 : ℝ) ^ (Real.logb 10 5 +
      (1 - (y + 0.5) / ((height : ℝ) - 1)) * (Real.logb 10 20000 - Real.logb 10 5))
  else
    5 + (1 - (y + 0.5) / ((height : ℝ) - 1)) * (20000 - 5)

/-- Spec-side helper: the frequency sitting at (fractional) pixel position `y`
of a column of `height` pixels, without the pixel-center offset.  `yToFreq y`
is `freqAtY (y + 0.5)`. -/
noncomputable def freqAtY (y : ℝ) (height : ℕ) (logarithmic : Bool) : ℝ :=
  if logarithmic then
    (10 : ℝ) ^ (Real.logb 10 5 +
      (1 - y / ((height : ℝ) - 1)) * (Real.logb 10 20000 - Real.logb 10 5))
  else
    5 + (1 - y / ((height : ℝ) - 1)) * (20000 - 5)

/-- Spec-side notion: the frequency span covered by the single pixel row
starting at position `y` (rows further down carry lower frequencies). -/
noncomputable def rowSpan (y : ℝ) (height : ℕ) (logarithmic : Bool) : ℝ :=
  freqAtY y height logarithmic - freqAtY (y + 1) height logarithmic

/-- Modelled from the spec: `binToPixelY` as §4.1 words it, returning
`OUT_OF_BAND` (here `none`) exactly when the bin frequency leaves [5, 20000],
and otherwise `floor (frac * (pixelHeight - 1))` with the mode-dependent
fraction. -/
noncomputable def binToPixelY_spec (binIndex bufferLength pixelHeight : ℕ) (scaleMode : Bool)
    (sampleRateHz transformSize : ℕ) : Option ℤ :=
  if binFreqR binIndex sampleRateHz transformSize < 5 ∨
      20000 < binFreqR binIndex sampleRateHz transformSize then
    none
  else if scaleMode then
    some ⌊(1 - (Real.logb 10 (binFreqR binIndex sampleRateHz transformSize) - Real.logb 10 5) /
        (Real.logb 10 20000 - Real.logb 10 5)) * ((pixelHeight : ℝ) - 1)⌋
  else
    some ⌊(1 - (binFreqR binIndex sampleRateHz transformSize - 5) / (20000 - 5)) *
        ((pixelHeight : ℝ) - 1)⌋

lemma logSpanPos : 0 < Real.logb 10 20000 - Real.logb 10 5 :=
  sub_pos.mpr (Real.logb_lt_logb (by norm_num) (by norm_num) (by norm_num))

lemma yToFreq_eq_freqAtY (y : ℝ) (H : ℕ) (m : Bool) :
    yToFreq y H m = freqAtY (y + 0.5) H m := by
  cases m <;> rfl

lemma freqAtY_true (y : ℝ) (H : ℕ) :
    freqAtY y H true = (10 : ℝ) ^ (Real.logb 10 5 +
      (1 - y / ((H : ℝ) - 1)) * (Real.logb 10 20000 - Real.logb 10 5)) := rfl

lemma freqAtY_false (y : ℝ) (H : ℕ) :
    freqAtY y H false = 5 + (1 - y / ((H : ℝ) - 1)) * (20000 - 5) := rfl

lemma freqAtY_anti {H : ℕ} (hH : 2 ≤ H) (m : Bool) {y₁ y₂ : ℝ} (h : y₁ ≤ y₂) :
    freqAtY y₂ H m ≤ freqAtY y₁ H m := by
  have h2 : (2 : ℝ) ≤ (H : ℝ) := by exact_mod_cast hH
  have hpos : (0 : ℝ) < (H : ℝ) - 1 := by linarith
  have hdiv : y₁ / ((H : ℝ) - 1) ≤ y₂ / ((H : ℝ) - 1) := by gcongr
  cases m with
  | true =>
    rw [freqAtY_true, freqAtY_true]
    apply (Real.rpow_le_rpow_left_iff (by norm_num : (1:ℝ) < 10)).mpr
    nlinarith [logSpanPos]
  | false =>
    rw [freqAtY_false, freqAtY_false]
    nlinarith

lemma inband_not_out {f : ℝ} (h5 : 5 ≤ f) (h20 : f ≤ 20000) : ¬(f < 5 ∨ 20000 < f) := by
  push_neg
  exact ⟨h5, h20⟩

/-- The in-band fractional position of a frequency, per scale mode. -/
noncomputable def fracOf (f : ℝ) (m : Bool) : ℝ :=
  if m then 1 - (Real.logb 10 f - Real.logb 10 5) / (Real.logb 10 20000 - Real.logb 10 5)
  else 1 - (f - 5) / (20000 - 5)

lemma fracOf_true (f : ℝ) : fracOf f true =
    1 - (Real.logb 10 f - Real.logb 10 5) / (Real.logb 10 20000 - Real.logb 10 5) := rfl

lemma fracOf_false (f : ℝ) : fracOf f false = 1 - (f - 5) / (20000 - 5) := rfl

lemma binToY_inband {i L H SR N : ℕ} (m : Bool)
    (h5 : 5 ≤ binFreqR i SR N) (h20 : binFreqR i SR N ≤ 20000) :
    binToY i L H m SR N = ⌊fracOf (binFreqR i SR N) m * ((H : ℝ) - 1)⌋ := by
  unfold binToY
  rw [if_neg (inband_not_out h5 h20)]
  cases m
  · rw [if_neg Bool.false_ne_true, fracOf_false]
  · rw [if_pos rfl, fracOf_true]

lemma freqAtY_of_frac {H : ℕ} (hH : 2 ≤ H) (m : Bool) {f : ℝ}
    (h5 : 5 ≤ f) (h20 : f ≤ 20000) :
    freqAtY (fracOf f m * ((H : ℝ) - 1)) H m = f := by
  have h2 : (2 : ℝ) ≤ (H : ℝ) := by exact_mod_cast hH
  have hne : ((H : ℝ) - 1) ≠ 0 := by linarith
  have hf0 : (0 : ℝ) < f := by linarith
  have hcancel : fracOf f m * ((H : ℝ) - 1) / ((H : ℝ) - 1) = fracOf f m :=
    mul_div_cancel_right₀ _ hne
  cases m with
  | true =>
    rw [freqAtY_true, hcancel]
    have hexp : Real.logb 10 5 +
        (1 - fracOf f true) * (Real.logb 10 20000 - Real.logb 10 5) = Real.logb 10 f := by
      have hLne : Real.logb 10 20000 - Real.logb 10 5 ≠ 0 := ne_of_gt logSpanPos
      rw [fracOf_true, sub_sub_cancel, div_mul_cancel₀ _ hLne]
      ring
    rw [hexp]
    exact Real.rpow_logb (by norm_num) (by norm_num) hf0
  | false =>
    rw [freqAtY_false, hcancel, fracOf_false]
    ring

/-- C1: round-trip of the coordinate mapping.  For every bin index whose
frequency `i * sampleRateHz / transformSize` lies in [5, 20000] Hz (so
`binToY` does not return the out-of-band sentinel), and for both Linear and
Logarithmic scale modes, `yToFreq` applied to `binToY i L H mode SR N`
yields a frequency within the frequency span of one pixel row of the bin's
true frequency. -/
theorem roundTrip_binToY_yToFreq (i L H SR N : ℕ) (m : Bool) (hH : 2 ≤ H)
    (h5 : 5 ≤ binFreqR i SR N) (h20 : binFreqR i SR N ≤ 20000) :
    |yToFreq ((binToY i L H m SR N : ℤ) : ℝ) H m - binFreqR i SR N| ≤
      rowSpan ((binToY i L H m SR N : ℤ) : ℝ) H m := by
  have hbin := binToY_inband (L := L) (H := H) m h5 h20
  rw [hbin]
  set t : ℝ := fracOf (binFreqR i SR N) m * ((H : ℝ) - 1) with ht
  have hfl : ((⌊t⌋ : ℝ)) ≤ t := Int.floor_le t
  have hfu : t < (⌊t⌋ : ℝ) + 1 := Int.lt_floor_add_one t
  have hfeq : freqAtY t H m = binFreqR i SR N := freqAtY_of_frac hH m h5 h20
  rw [yToFreq_eq_freqAtY, ← hfeq]
  unfold rowSpan
  have e1 : freqAtY t H m ≤ freqAtY ((⌊t⌋ : ℝ)) H m := freqAtY_anti hH m hfl
  have e2 : freqAtY ((⌊t⌋ : ℝ) + 1) H m ≤ freqAtY t H m := freqAtY_anti hH m hfu.le
  have e3 : freqAtY ((⌊t⌋ : ℝ) + 0.5) H m ≤ freqAtY ((⌊t⌋ : ℝ)) H m :=
    freqAtY_anti hH m (by norm_num)
  have e4 : freqAtY ((⌊t⌋ : ℝ) + 1) H m ≤ freqAtY ((⌊t⌋ : ℝ) + 0.5) H m :=
    freqAtY_anti hH m (by norm_num)
  rw [abs_sub_le_iff]
  constructor <;> linarith

/-- Witness for C1 at bin 100, sample rate 44100, transform size 2048,
canvas height 320, both scale modes. -/
theorem roundTrip_binToY_yToFreq_witness :
    (|yToFreq ((binToY 100 1024 320 true 44100 2048 : ℤ) : ℝ) 320 true -
        binFreqR 100 44100 2048| ≤
      rowSpan ((binToY 100 1024 320 true 44100 2048 : ℤ) : ℝ) 320 true) ∧
    (|yToFreq ((binToY 100 1024 320 false 44100 2048 : ℤ) : ℝ) 320 false -
        binFreqR 100 44100 2048| ≤
      rowSpan ((binToY 100 1024 320 false 44100 2048 : ℤ) : ℝ) 320 false) :=
  ⟨roundTrip_binToY_yToFreq 100 1024 320 44100 2048 true (by norm_num)
      (by norm_num [binFreqR]) (by norm_num [binFreqR]),
    roundTrip_binToY_yToFreq 100 1024 320 44100 2048 false (by norm_num)
      (by norm_num [binFreqR]) (by norm_num [binFreqR])⟩

/-- C3: `binToY` computes `binFreq = binIndex * sampleRateHz / transformSize`
and returns the out-of-band sentinel exactly when `binFreq < 5` or
`binFreq > 20000` (in particular for bin 0 and for every bin above 20000 Hz);
otherwise it returns `floor (frac * (pixelHeight - 1))` with the Logarithmic
and Linear fractions of the spec (packaged as `binToPixelY_spec`). -/
theorem binToY_contract (i L H : ℕ) (m : Bool) (SR N : ℕ) (hH : 1 ≤ H) :
    (binToY i L H m SR N = -1 ↔
      binFreqR i SR N < 5 ∨ 20000 < binFreqR i SR N) ∧
    binToPixelY_spec i L H m SR N =
      (if binToY i L H m SR N = -1 then none else some (binToY i L H m SR N)) ∧
    binToY 0 L H m SR N = -1 ∧
    (20000 < binFreqR i SR N → binToY i L H m SR N = -1) := by
  have hzero : binFreqR 0 SR N < 5 := by
    simp [binFreqR]
  have key : ∀ j : ℕ, binToY j L H m SR N = -1 ↔
      binFreqR j SR N < 5 ∨ 20000 < binFreqR j SR N := by
    intro j
    constructor
    · intro hout
      by_contra hc
      push_neg at hc
      have h5 := hc.1
      have h20 := hc.2
      rw [binToY_inband m h5 h20] at hout
      have hfrac : 0 ≤ fracOf (binFreqR j SR N) m := by
        cases m with
        | true =>
          rw [fracOf_true]
          have hlog : Real.logb 10 (binFreqR j SR N) ≤ Real.logb 10 20000 :=
            Real.logb_le_logb_of_le (by norm_num) (by linarith) h20
          have h1 : (Real.logb 10 (binFreqR j SR N) - Real.logb 10 5) /
              (Real.logb 10 20000 - Real.logb 10 5) ≤ 1 := by
            rw [div_le_one logSpanPos]
            linarith
          linarith
        | false =>
          rw [fracOf_false]
          have h1 : (binFreqR j SR N - 5) / (20000 - 5) ≤ 1 := by
            rw [div_le_one (by norm_num)]
            linarith
          linarith
      have hH1 : (0 : ℝ) ≤ (H : ℝ) - 1 := by
        have : (1 : ℝ) ≤ (H : ℝ) := by exact_mod_cast hH
        linarith
      have hnn : (0 : ℤ) ≤ ⌊fracOf (binFreqR j SR N) m * ((H : ℝ) - 1)⌋ :=
        Int.floor_nonneg.mpr (mul_nonneg hfrac hH1)
      omega
    · intro hout
      unfold binToY
      rw [if_pos hout]
  refine ⟨key i, ?_, (key 0).mpr (Or.inl hzero), fun h => (key i).mpr (Or.inr h)⟩
  by_cases hout : binFreqR i SR N < 5 ∨ 20000 < binFreqR i SR N
  · rw [if_pos ((key i).mpr hout)]
    unfold binToPixelY_spec
    rw [if_pos hout]
  · rw [if_neg (fun h => hout ((key i).mp h))]
    push_neg at hout
    rw [binToY_inband m hout.1 hout.2]
    unfold binToPixelY_spec
    rw [if_neg (inband_not_out hout.1 hout.2)]
    cases m
    · rw [if_neg Bool.false_ne_true, fracOf_false]
    · rw [if_pos rfl, fracOf_true]

/-- Witness for C3: bin 1000 at SR 44100, N 2048 has frequency above
20000 Hz and is mapped out of band. -/
theorem binToY_contract_witness :
    binToY 1000 1024 320 true 44100 2048 = -1 :=
  (binToY_contract 1000 1024 320 true 44100 2048 (by norm_num)).2.2.2
    (by norm_num [binFreqR])

/-! ### SpectralAnalyzer (App.jsx lines 80-139) -/

/-- The bin-to-frequency relation in exact rational form, as used by the
analyzer (`binIndex * sampleRate / fftSize`). -/
def binFreqQ (binIndex sampleRate fftSize : ℕ) : ℚ :=
  ((binIndex : ℚ) * (sampleRate : ℚ)) / (fftSize : ℚ)

/-- One step of the peak loop of `calculateFrequencyAnalysis` (App.jsx 84-91):
scan the index list, keeping `(maxValue, peakBin)`, updating on a strictly
larger magnitude. -/
def pickMax (l : List ℤ) : List ℕ → ℤ × ℕ → ℤ × ℕ
  | [], acc => acc
  | i :: rest, acc =>
    pickMax l rest (if acc.1 < l.getD i 0 then (l.getD i 0, i) else acc)

/-- The dominant-frequency loop: `maxValue = 0, peakBin = 0`, then scan all
bins. -/
def peakScan (l : List ℤ) : ℤ × ℕ := pickMax l (List.range l.length) (0, 0)

/-- The local-peak test of App.jsx 104-105:
`(i === 0 || arr[i-1] < value) && (i === len-1 || arr[i+1] < value)`. -/
def isPeakAt (l : List ℤ) (i : ℕ) : Prop :=
  (i = 0 ∨ l.getD (i - 1) 0 < l.getD i 0) ∧
  (i = l.length - 1 ∨ l.getD (i + 1) 0 < l.getD i 0)

instance (l : List ℤ) (i : ℕ) : Decidable (isPeakAt l i) := by
  unfold isPeakAt
  infer_instance

/-- `lowFreqLimit = Math.floor((2000 * fftSize) / sampleRate)` (App.jsx 96). -/
def lowFreqLimit (sampleRate fftSize : ℕ) : ℕ := 2000 * fftSize / sampleRate

/-- The fundamental loop body (App.jsx 100-111): the noise threshold and the
running-maximum test are checked before the local-peak test, exactly as in the
source. -/
def fundLoop (l : List ℤ) : List ℕ → ℤ × ℕ → ℤ × ℕ
  | [], acc => acc
  | i :: rest, acc =>
    fundLoop l rest
      (if acc.1 < l.getD i 0 ∧ 50 < l.getD i 0 then
        if isPeakAt l i then (l.getD i 0, i) else acc
      else acc)

/-- The index range of the fundamental loop:
`for (let i = 1; i < Math.min(lowFreqLimit, length); i += 1)`. -/
def scanRange (l : List ℤ) (sampleRate fftSize : ℕ) : List ℕ :=
  (List.range (min (lowFreqLimit sampleRate fftSize) l.length)).drop 1

def fundScan (l : List ℤ) (sampleRate fftSize : ℕ) : ℤ × ℕ :=
  fundLoop l (scanRange l sampleRate fftSize) (0, 0)

structure Harmonic where
  order : ℕ
  frequency : ℚ
  amplitude : ℤ
  deriving DecidableEq

structure Analysis where
  topResonating : ℚ
  fundamental : Option ℚ
  harmonics : List Harmonic
  deriving DecidableEq

/-- The harmonic loop (App.jsx 115-132): for orders 2..4, look up the bin
`floor(harmonicFreq * fftSize / sampleRate)` and emit it when in range and
above the amplitude threshold 30. -/
def harmonicScan (l : List ℤ) (fundamentalFreq : ℚ) (sampleRate fftSize : ℕ) :
    List Harmonic :=
  if 10 < fundamentalFreq then
    ([2, 3, 4] : List ℕ).foldl
      (fun (acc : List Harmonic) (n : ℕ) =>
        if ⌊fundamentalFreq * (n : ℚ) * (fftSize : ℚ) / (sampleRate : ℚ)⌋ < (l.length : ℤ) then
          if 30 < l.getD (⌊fundamentalFreq * (n : ℚ) * (fftSize : ℚ) / (sampleRate : ℚ)⌋).toNat 0 then
            acc ++ [Harmonic.mk n (fundamentalFreq * (n : ℚ))
              (l.getD (⌊fundamentalFreq * (n : ℚ) * (fftSize : ℚ) / (sampleRate : ℚ)⌋).toNat 0)]
          else acc
        else acc)
      []
  else []

/-- Translation of `calculateFrequencyAnalysis` (App.jsx 80-139).  A `none`
result corresponds to the early `return null` on empty input; the source has
no other failure channel. -/
def calculateFrequencyAnalysis (freqDataArray : List ℤ) (sampleRate fftSize : ℕ) :
    Option Analysis :=
  if freqDataArray.length = 0 then none
  else
    some
      { topResonating := binFreqQ (peakScan freqDataArray).2 sampleRate fftSize,
        fundamental :=
          if 10 < binFreqQ (fundScan freqDataArray sampleRate fftSize).2 sampleRate fftSize then
            some (binFreqQ (fundScan freqDataArray sampleRate fftSize).2 sampleRate fftSize)
          else none,
        harmonics :=
          harmonicScan freqDataArray
            (binFreqQ (fundScan freqDataArray sampleRate fftSize).2 sampleRate fftSize)
            sampleRate fftSize }

/-- Spec-side qualification predicate (§4.2): a candidate bin is a local peak
strictly above both neighbors (boundary bins compare only against the
existing neighbor) with magnitude above the noise threshold 50. -/
def qualifiesAt (l : List ℤ) (i : ℕ) : Prop := isPeakAt l i ∧ 50 < l.getD i 0

instance (l : List ℤ) (i : ℕ) : Decidable (qualifiesAt l i) := by
  unfold qualifiesAt
  infer_instance

/-- Spec-side candidate list: the scanned bins that qualify as peaks. -/
def fundCandidates (l : List ℤ) (sampleRate fftSize : ℕ) : List ℕ :=
  (scanRange l sampleRate fftSize).filter (fun i => decide (qualifiesAt l i))

/-- Spec-side selection: among qualifying peaks keep the one with the largest
magnitude, first seen winning ties (scan order). -/
def fundPick (l : List ℤ) (sampleRate fftSize : ℕ) : ℤ × ℕ :=
  pickMax l (fundCandidates l sampleRate fftSize) (0, 0)

lemma pickMax_spec (l : List ℤ) (xs : List ℕ) : ∀ acc : ℤ × ℕ,
    (pickMax l xs acc = acc ∧ ∀ i ∈ xs, l.getD i 0 ≤ acc.1) ∨
    (acc.1 < (pickMax l xs acc).1 ∧
      ∃ ys zs, xs = ys ++ (pickMax l xs acc).2 :: zs ∧
        (pickMax l xs acc).1 = l.getD (pickMax l xs acc).2 0 ∧
        (∀ i ∈ ys, l.getD i 0 < (pickMax l xs acc).1) ∧
        (∀ i ∈ zs, l.getD i 0 ≤ (pickMax l xs acc).1)) := by
  induction xs with
  | nil =>
    intro acc
    left
    exact ⟨rfl, by simp⟩
  | cons i rest ih =>
    intro acc
    by_cases h : acc.1 < l.getD i 0
    · have hstep : pickMax l (i :: rest) acc = pickMax l rest (l.getD i 0, i) := by
        simp only [pickMax, if_pos h]
      rcases ih (l.getD i 0, i) with ⟨heq, hall⟩ | ⟨hlt, ys, zs, hdec, hval, hys, hzs⟩
      · right
        rw [hstep, heq]
        exact ⟨h, [], rest, rfl, rfl, by simp, hall⟩
      · right
        rw [hstep]
        refine ⟨lt_trans h hlt, i :: ys, zs, by rw [List.cons_append, ← hdec], hval, ?_, hzs⟩
        intro j hj
        rcases List.mem_cons.mp hj with rfl | hj'
        · exact hlt
        · exact hys j hj'
    · have hstep : pickMax l (i :: rest) acc = pickMax l rest acc := by
        simp only [pickMax, if_neg h]
      rcases ih acc with ⟨heq, hall⟩ | ⟨hlt, ys, zs, hdec, hval, hys, hzs⟩
      · left
        rw [hstep]
        refine ⟨heq, ?_⟩
        intro j hj
        rcases List.mem_cons.mp hj with rfl | hj'
        · exact not_lt.mp h
        · exact hall j hj'
      · right
        rw [hstep]
        refine ⟨hlt, i :: ys, zs, by rw [List.cons_append, ← hdec], hval, ?_, hzs⟩
        intro j hj
        rcases List.mem_cons.mp hj with rfl | hj'
        · exact lt_of_le_of_lt (not_lt.mp h) hlt
        · exact hys j hj'

lemma getD_zero_of_allzero {l : List ℤ} (h : ∀ v ∈ l, v = 0) (i : ℕ) :
    l.getD i 0 = 0 := by
  by_cases hi : i < l.length
  · rw [List.getD_eq_getElem l 0 hi]
    exact h _ (List.getElem_mem hi)
  · exact List.getD_eq_default l 0 (le_of_not_lt hi)

lemma pickMax_allzero {l : List ℤ} (h : ∀ v ∈ l, v = 0) (xs : List ℕ) :
    pickMax l xs (0, 0) = (0, 0) := by
  induction xs with
  | nil => rfl
  | cons i rest ih =>
    have : ¬((0, 0) : ℤ × ℕ).1 < l.getD i 0 := by
      rw [getD_zero_of_allzero h]
      exact lt_irrefl 0
    simp only [pickMax, if_neg this]
    exact ih

/-- The source's fundamental loop computes exactly the spec-side
filter-then-pick: thresholds-first versus peak-test-first does not matter. -/
lemma fundLoop_eq_pickMax (l : List ℤ) (xs : List ℕ) : ∀ acc : ℤ × ℕ,
    fundLoop l xs acc = pickMax l (xs.filter (fun i => decide (qualifiesAt l i))) acc := by
  induction xs with
  | nil => intro acc; rfl
  | cons i rest ih =>
    intro acc
    by_cases hq : qualifiesAt l i
    · have hfil : (i :: rest).filter (fun i => decide (qualifiesAt l i)) =
          i :: rest.filter (fun i => decide (qualifiesAt l i)) := by
        simp [List.filter_cons, hq]
      rw [hfil]
      by_cases hlt : acc.1 < l.getD i 0
      · have h1 : fundLoop l (i :: rest) acc = fundLoop l rest (l.getD i 0, i) := by
          simp only [fundLoop, if_pos (And.intro hlt hq.2), if_pos hq.1]
        have h2 : pickMax l (i :: rest.filter (fun i => decide (qualifiesAt l i))) acc =
            pickMax l (rest.filter (fun i => decide (qualifiesAt l i))) (l.getD i 0, i) := by
          simp only [pickMax, if_pos hlt]
        rw [h1, h2, ih]
      · have h1 : fundLoop l (i :: rest) acc = fundLoop l rest acc := by
          by_cases hc : acc.1 < l.getD i 0 ∧ 50 < l.getD i 0
          · exact absurd hc.1 hlt
          · simp only [fundLoop, if_neg hc]
        have h2 : pickMax l (i :: rest.filter (fun i => decide (qualifiesAt l i))) acc =
            pickMax l (rest.filter (fun i => decide (qualifiesAt l i))) acc := by
          simp only [pickMax, if_neg hlt]
        rw [h1, h2, ih]
    · have hfil : (i :: rest).filter (fun i => decide (qualifiesAt l i)) =
          rest.filter (fun i => decide (qualifiesAt l i)) := by
        simp [List.filter_cons, hq]
      rw [hfil]
      have h1 : fundLoop l (i :: rest) acc = fundLoop l rest acc := by
        by_cases hc : acc.1 < l.getD i 0 ∧ 50 < l.getD i 0
        · have hp : ¬ isPeakAt l i := fun hp => hq ⟨hp, hc.2⟩
          simp only [fundLoop, if_pos hc, if_neg hp]
        · simp only [fundLoop, if_neg hc]
      rw [h1, ih]

lemma analysis_some {l : List ℤ} (SR N : ℕ) (hlen : l.length ≠ 0) :
    calculateFrequencyAnalysis l SR N =
      some
        { topResonating := binFreqQ (peakScan l).2 SR N,
          fundamental :=
            if 10 < binFreqQ (fundScan l SR N).2 SR N then
              some (binFreqQ (fundScan l SR N).2 SR N)
            else none,
          harmonics :=
            harmonicScan l (binFreqQ (fundScan l SR N).2 SR N) SR N } := by
  unfold calculateFrequencyAnalysis
  rw [if_neg hlen]

lemma binFreqQ_zero (SR N : ℕ) : binFreqQ 0 SR N = 0 := by
  simp [binFreqQ]

/-- C4: the analyzer reports as dominant frequency the frequency of the bin
with the maximum magnitude, ties resolved to the first occurrence by
ascending index; on an all-zero array the dominant frequency is bin 0's
frequency (0 Hz) with fundamental absent and harmonics empty, and no error
is raised (a summary is still produced). -/
theorem dominant_frequency (l : List ℤ) (SR N : ℕ) (hne : l ≠ [])
    (hnn : ∀ v ∈ l, 0 ≤ v) :
    ∃ s b, calculateFrequencyAnalysis l SR N = some s ∧
      b < l.length ∧ s.topResonating = binFreqQ b SR N ∧
      (∀ j, j < l.length → l.getD j 0 ≤ l.getD b 0) ∧
      (∀ j, j < b → l.getD j 0 < l.getD b 0) ∧
      ((∀ v ∈ l, v = 0) →
        b = 0 ∧ s.topResonating = 0 ∧ s.fundamental = none ∧ s.harmonics = []) := by
  have hlen : l.length ≠ 0 := fun h => hne (List.length_eq_zero.mp h)
  have hpos : 0 < l.length := Nat.pos_of_ne_zero hlen
  have hana := analysis_some SR N hlen (l := l)
  by_cases hz : ∀ v ∈ l, v = 0
  · have hpk : peakScan l = (0, 0) := pickMax_allzero hz _
    have hfz : fundScan l SR N = (0, 0) := by
      rw [fundScan, fundLoop_eq_pickMax]
      exact pickMax_allzero hz _
    refine ⟨_, (peakScan l).2, hana, ?_, rfl, ?_, ?_, ?_⟩
    · rw [hpk]
      exact hpos
    · intro j _
      rw [getD_zero_of_allzero hz, getD_zero_of_allzero hz]
    · intro j hj
      rw [hpk] at hj
      exact absurd hj (Nat.not_lt_zero j)
    · intro _
      refine ⟨by rw [hpk], ?_, ?_, ?_⟩
      · show binFreqQ (peakScan l).2 SR N = 0
        rw [hpk]
        exact binFreqQ_zero SR N
      · show (if 10 < binFreqQ (fundScan l SR N).2 SR N then
            some (binFreqQ (fundScan l SR N).2 SR N) else none) = none
        rw [hfz, binFreqQ_zero]
        norm_num
      · show harmonicScan l (binFreqQ (fundScan l SR N).2 SR N) SR N = []
        rw [hfz, binFreqQ_zero]
        unfold harmonicScan
        rw [if_neg (by norm_num)]
  · push_neg at hz
    obtain ⟨v, hvmem, hvne⟩ := hz
    obtain ⟨jv, hjv, hjveq⟩ := List.mem_iff_getElem.mp hvmem
    have hvpos : 0 < l.getD jv 0 := by
      rw [List.getD_eq_getElem l 0 hjv, hjveq]
      exact lt_of_le_of_ne (hnn v hvmem) (Ne.symm hvne)
    have hps : peakScan l = pickMax l (List.range l.length) (0, 0) := rfl
    rcases pickMax_spec l (List.range l.length) (0, 0) with
      ⟨_, hall⟩ | ⟨hlt, ys, zs, hdec, hval, hys, hzs⟩
    · exact absurd (hall jv (List.mem_range.mpr hjv)) (not_le.mpr hvpos)
    · rw [← hps] at hlt hdec hval hys hzs
      have hbmem : (peakScan l).2 ∈ List.range l.length := by
        rw [hdec]
        exact List.mem_append.mpr (Or.inr (List.mem_cons_self _ _))
      have hblt : (peakScan l).2 < l.length := List.mem_range.mp hbmem
      have hpw := List.pairwise_lt_range l.length
      rw [hdec] at hpw
      obtain ⟨_, hpbzs, _⟩ := List.pairwise_append.mp hpw
      have hbz : ∀ z ∈ zs, (peakScan l).2 < z := (List.pairwise_cons.mp hpbzs).1
      refine ⟨_, (peakScan l).2, hana, hblt, rfl, ?_, ?_, ?_⟩
      · intro j hj
        have hjmem : j ∈ List.range l.length := List.mem_range.mpr hj
        rw [hdec] at hjmem
        rcases List.mem_append.mp hjmem with hjy | hjbz
        · have := hys j hjy
          rw [hval] at this
          exact this.le
        · rcases List.mem_cons.mp hjbz with heq | hjz
          · rw [heq]
          · have := hzs j hjz
            rw [hval] at this
            exact this
      · intro j hjb
        have hjlen : j < l.length := lt_trans hjb hblt
        have hjmem : j ∈ List.range l.length := List.mem_range.mpr hjlen
        rw [hdec] at hjmem
        rcases List.mem_append.mp hjmem with hjy | hjbz
        · have := hys j hjy
          rw [hval] at this
          exact this
        · rcases List.mem_cons.mp hjbz with heq | hjz
          · rw [heq] at hjb
            exact absurd hjb (lt_irrefl _)
          · exact absurd hjb (not_lt.mpr (hbz j hjz).le)
      · intro hallz
        exact absurd (hallz v hvmem) hvne

/-- Witness for C4: the all-zero magnitude array of length 1024 at
SR = 44100, N = 2048 (the spec's degenerate test). -/
theorem dominant_frequency_witness :
    ∃ s b, calculateFrequencyAnalysis (List.replicate 1024 (0 : ℤ)) 44100 2048 = some s ∧
      b < (List.replicate 1024 (0 : ℤ)).length ∧ s.topResonating = binFreqQ b 44100 2048 ∧
      (∀ j, j < (List.replicate 1024 (0 : ℤ)).length →
        (List.replicate 1024 (0 : ℤ)).getD j 0 ≤ (List.replicate 1024 (0 : ℤ)).getD b 0) ∧
      (∀ j, j < b →
        (List.replicate 1024 (0 : ℤ)).getD j 0 < (List.replicate 1024 (0 : ℤ)).getD b 0) ∧
      ((∀ v ∈ List.replicate 1024 (0 : ℤ), v = 0) →
        b = 0 ∧ s.topResonating = 0 ∧ s.fundamental = none ∧ s.harmonics = []) :=
  dominant_frequency (List.replicate 1024 (0 : ℤ)) 44100 2048
    (List.length_pos.mp (by rw [List.length_replicate]; norm_num))
    (fun v hv => le_of_eq (List.eq_of_mem_replicate hv).symm)

/-- C5: the fundamental search scans only bins of frequency below 2000 Hz
(excluding bin 0); qualification is the strict local-peak test plus the
threshold 50; among qualifying peaks the largest magnitude wins with the
first seen breaking ties; the result is reported as fundamental exactly when
its frequency exceeds 10 Hz. -/
theorem fundamental_estimate (l : List ℤ) (SR N : ℕ) (s : Analysis) (hSR : 0 < SR)
    (hs : calculateFrequencyAnalysis l SR N = some s) :
    (∀ i ∈ scanRange l SR N, 1 ≤ i ∧ binFreqQ i SR N < 2000) ∧
    s.fundamental = (if 10 < binFreqQ (fundPick l SR N).2 SR N then
      some (binFreqQ (fundPick l SR N).2 SR N) else none) ∧
    (fundCandidates l SR N = [] → fundPick l SR N = (0, 0)) ∧
    (fundCandidates l SR N ≠ [] →
      qualifiesAt l (fundPick l SR N).2 ∧
      ∃ ys zs, fundCandidates l SR N = ys ++ (fundPick l SR N).2 :: zs ∧
        (fundPick l SR N).1 = l.getD (fundPick l SR N).2 0 ∧
        (∀ i ∈ ys, l.getD i 0 < (fundPick l SR N).1) ∧
        (∀ i ∈ zs, l.getD i 0 ≤ (fundPick l SR N).1)) := by
  have hlen : l.length ≠ 0 := by
    intro h
    unfold calculateFrequencyAnalysis at hs
    rw [if_pos h] at hs
    exact Option.noConfusion hs
  have hfp : fundScan l SR N = fundPick l SR N := by
    rw [fundScan, fundLoop_eq_pickMax]
    rfl
  have hseq := Option.some.inj ((analysis_some SR N hlen (l := l)).symm.trans hs)
  refine ⟨?_, ?_, ?_, ?_⟩
  · intro i hi
    have hilt : i < min (lowFreqLimit SR N) l.length :=
      List.mem_range.mp (List.mem_of_mem_drop hi)
    have h1le : 1 ≤ i := by
      rcases hM : min (lowFreqLimit SR N) l.length with _ | m
      · rw [scanRange, hM] at hi
        simp at hi
      · rw [scanRange, hM, List.range_succ_eq_map] at hi
        simp only [List.drop_succ_cons, List.drop_zero] at hi
        obtain ⟨j, _, hji⟩ := List.mem_map.mp hi
        omega
    refine ⟨h1le, ?_⟩
    have h1 : i < 2000 * N / SR := lt_of_lt_of_le hilt (min_le_left _ _)
    have h2 : (i + 1) * SR ≤ 2000 * N :=
      (Nat.le_div_iff_mul_le hSR).mp (Nat.succ_le_of_lt h1)
    have h3 : i * SR < 2000 * N :=
      lt_of_lt_of_le ((Nat.mul_lt_mul_right hSR).mpr (Nat.lt_succ_self i)) h2
    unfold binFreqQ
    by_cases hN : N = 0
    · rw [hN]
      norm_num
    · have hNQ : (0 : ℚ) < (N : ℚ) := by
        exact_mod_cast Nat.pos_of_ne_zero hN
      rw [div_lt_iff hNQ]
      have h4 : ((i : ℚ) * (SR : ℚ)) < 2000 * (N : ℚ) := by
        exact_mod_cast h3
      linarith
  · rw [← hseq, ← hfp]
  · intro h
    rw [fundPick, h]
    rfl
  · intro hne
    have hfpick : fundPick l SR N = pickMax l (fundCandidates l SR N) (0, 0) := rfl
    rcases pickMax_spec l (fundCandidates l SR N) (0, 0) with
      ⟨_, hall⟩ | ⟨_, ys, zs, hdec, hval, hys, hzs⟩
    · obtain ⟨c, hc⟩ := List.exists_mem_of_ne_nil _ hne
      have hq : qualifiesAt l c :=
        of_decide_eq_true (List.mem_filter.mp hc).2
      have := hall c hc
      have := hq.2
      omega
    · rw [← hfpick] at hdec hval hys hzs
      have hmem : (fundPick l SR N).2 ∈ fundCandidates l SR N := by
        rw [hdec]
        exact List.mem_append.mpr (Or.inr (List.mem_cons_self _ _))
      exact ⟨of_decide_eq_true (List.mem_filter.mp hmem).2, ys, zs, hdec, hval, hys, hzs⟩

/-- Witness for C5: the array `[0, 60, 0]` at SR = 44100, N = 2048 has a
single qualifying peak at bin 1, reported as fundamental. -/
theorem fundamental_estimate_witness :
    (∀ i ∈ scanRange [0, 60, 0] 44100 2048, 1 ≤ i ∧ binFreqQ i 44100 2048 < 2000) ∧
    (Analysis.mk (binFreqQ (peakScan [0, 60, 0]).2 44100 2048)
      (if 10 < binFreqQ (fundScan [0, 60, 0] 44100 2048).2 44100 2048 then
        some (binFreqQ (fundScan [0, 60, 0] 44100 2048).2 44100 2048) else none)
      (harmonicScan [0, 60, 0] (binFreqQ (fundScan [0, 60, 0] 44100 2048).2 44100 2048)
        44100 2048)).fundamental =
      (if 10 < binFreqQ (fundPick [0, 60, 0] 44100 2048).2 44100 2048 then
        some (binFreqQ (fundPick [0, 60, 0] 44100 2048).2 44100 2048) else none) ∧
    (fundCandidates [0, 60, 0] 44100 2048 = [] → fundPick [0, 60, 0] 44100 2048 = (0, 0)) ∧
    (fundCandidates [0, 60, 0] 44100 2048 ≠ [] →
      qualifiesAt [0, 60, 0] (fundPick [0, 60, 0] 44100 2048).2 ∧
      ∃ ys zs, fundCandidates [0, 60, 0] 44100 2048 =
          ys ++ (fundPick [0, 60, 0] 44100 2048).2 :: zs ∧
        (fundPick [0, 60, 0] 44100 2048).1 =
          List.getD [0, 60, 0] (fundPick [0, 60, 0] 44100 2048).2 0 ∧
        (∀ i ∈ ys, List.getD [0, 60, 0] i 0 < (fundPick [0, 60, 0] 44100 2048).1) ∧
        (∀ i ∈ zs, List.getD [0, 60, 0] i 0 ≤ (fundPick [0, 60, 0] 44100 2048).1)) :=
  fundamental_estimate [0, 60, 0] 44100 2048 _ (by norm_num)
    (analysis_some 44100 2048 (by simp))

/-- C9 counterexample: the claim says magnitudes containing negative values
are rejected with an InvalidFrame error, but `calculateFrequencyAnalysis`
has no such error channel: on `[0, -3]` it returns an ordinary summary. -/
theorem invalidFrame_never_rejected :
    calculateFrequencyAnalysis [0, -3] 44100 2048 =
      some { topResonating := 0, fundamental := none, harmonics := [] } ∧
    calculateFrequencyAnalysis [0, -3] 44100 2048 ≠ none := by
  have hps : (peakScan [0, -3]).2 = 0 := by decide
  have hfs : (fundScan [0, -3] 44100 2048).2 = 0 := by decide
  have h := analysis_some (l := [0, -3]) 44100 2048 (by simp)
  rw [hps, hfs, binFreqQ_zero] at h
  rw [if_neg (by norm_num : ¬(10 : ℚ) < 0)] at h
  rw [show harmonicScan [0, -3] (0 : ℚ) 44100 2048 = [] from by
    unfold harmonicScan
    rw [if_neg (by norm_num)]] at h
  refine ⟨h, ?_⟩
  rw [h]
  simp

/-- C9 (amended): the analyzer performs no input validation and never
rejects a non-empty frame; in particular on all-zero (silent) input it
returns a summary with no fundamental and no harmonics. -/
theorem analyzer_no_validation (l : List ℤ) (SR N : ℕ) (hne : l ≠ []) :
    (∃ s, calculateFrequencyAnalysis l SR N = some s) ∧
    (∀ s, calculateFrequencyAnalysis l SR N = some s → (∀ v ∈ l, v = 0) →
      s.fundamental = none ∧ s.harmonics = []) := by
  have hlen : l.length ≠ 0 := fun h => hne (List.length_eq_zero.mp h)
  constructor
  · exact ⟨_, analysis_some SR N hlen (l := l)⟩
  · intro s hs hz
    have hfz : fundScan l SR N = (0, 0) := by
      rw [fundScan, fundLoop_eq_pickMax]
      exact pickMax_allzero hz _
    have hseq := Option.some.inj ((analysis_some SR N hlen (l := l)).symm.trans hs)
    rw [← hseq]
    constructor
    · show (if 10 < binFreqQ (fundScan l SR N).2 SR N then
          some (binFreqQ (fundScan l SR N).2 SR N) else none) = none
      rw [hfz, binFreqQ_zero]
      norm_num
    · show harmonicScan l (binFreqQ (fundScan l SR N).2 SR N) SR N = []
      rw [hfz, binFreqQ_zero]
      unfold harmonicScan
      rw [if_neg (by norm_num)]

/-- Witness for C9's amended statement, at the silent input `[0, 0, 0]`. -/
theorem analyzer_no_validation_witness :
    (∃ s, calculateFrequencyAnalysis [0, 0, 0] 44100 2048 = some s) ∧
    (∀ s, calculateFrequencyAnalysis [0, 0, 0] 44100 2048 = some s →
      (∀ v ∈ ([0, 0, 0] : List ℤ), v = 0) →
      s.fundamental = none ∧ s.harmonics = []) :=
  analyzer_no_validation [0, 0, 0] 44100 2048 (by simp)

/-- Modelled from the spec (§4.2, Harmonics): for orders 2..4, emit the
harmonic exactly when `harmonicBin = floor(order * fundamentalFreq *
transformSize / sampleRateHz)` is in range and the magnitude there
exceeds 30, in ascending order of `order`. -/
def harmonicsSpec (l : List ℤ) (fundamentalFreq : ℚ) (sampleRate fftSize : ℕ) :
    List Harmonic :=
  ([2, 3, 4] : List ℕ).filterMap (fun (n : ℕ) =>
    if ⌊fundamentalFreq * (n : ℚ) * (fftSize : ℚ) / (sampleRate : ℚ)⌋ < (l.length : ℤ) ∧
        30 < l.getD (⌊fundamentalFreq * (n : ℚ) * (fftSize : ℚ) / (sampleRate : ℚ)⌋).toNat 0 then
      some (Harmonic.mk n (fundamentalFreq * (n : ℚ))
        (l.getD (⌊fundamentalFreq * (n : ℚ) * (fftSize : ℚ) / (sampleRate : ℚ)⌋).toNat 0))
    else none)

lemma foldl_emit_eq_filterMap (g : ℕ → Option Harmonic)
    (f : List Harmonic → ℕ → List Harmonic)
    (hf : ∀ acc n, f acc n = match g n with | some h => acc ++ [h] | none => acc)
    (xs : List ℕ) : ∀ acc : List Harmonic, xs.foldl f acc = acc ++ xs.filterMap g := by
  induction xs with
  | nil =>
    intro acc
    simp
  | cons n rest ih =>
    intro acc
    rw [List.foldl_cons, hf]
    cases hg : g n with
    | none =>
      simp only [hg]
      rw [ih, List.filterMap_cons, hg]
    | some h =>
      simp only [hg]
      rw [ih, List.filterMap_cons, hg]
      simp

lemma harmonicScan_eq_spec (l : List ℤ) (fF : ℚ) (SR N : ℕ) (h10 : 10 < fF) :
    harmonicScan l fF SR N = harmonicsSpec l fF SR N := by
  unfold harmonicScan harmonicsSpec
  rw [if_pos h10]
  rw [foldl_emit_eq_filterMap
    (fun (n : ℕ) =>
      if ⌊fF * (n : ℚ) * (N : ℚ) / (SR : ℚ)⌋ < (l.length : ℤ) ∧
          30 < l.getD (⌊fF * (n : ℚ) * (N : ℚ) / (SR : ℚ)⌋).toNat 0 then
        some (Harmonic.mk n (fF * (n : ℚ))
          (l.getD (⌊fF * (n : ℚ) * (N : ℚ) / (SR : ℚ)⌋).toNat 0))
      else none)
    _ ?_ [2, 3, 4] []]
  · rw [List.nil_append]
  · intro acc n
    simp only []
    by_cases h1 : ⌊fF * (n : ℚ) * (N : ℚ) / (SR : ℚ)⌋ < (l.length : ℤ)
    · by_cases h2 : 30 < l.getD (⌊fF * (n : ℚ) * (N : ℚ) / (SR : ℚ)⌋).toNat 0
      · rw [if_pos h1, if_pos h2, if_pos (And.intro h1 h2)]
      · rw [if_pos h1, if_neg h2, if_neg (fun hc => h2 hc.2)]
    · rw [if_neg h1, if_neg (fun hc => h1 hc.1)]

lemma harmonicsSpec_sorted (l : List ℤ) (fF : ℚ) (SR N : ℕ) :
    (harmonicsSpec l fF SR N).Pairwise (fun a b => a.order < b.order) := by
  unfold harmonicsSpec
  refine List.Pairwise.filterMap _ ?_ (by decide : ([2, 3, 4] : List ℕ).Pairwise (· < ·))
  intro a a' hlt b hb b' hb'
  have hba : b.order = a := by
    by_cases hc : ⌊fF * (a : ℚ) * (N : ℚ) / (SR : ℚ)⌋ < (l.length : ℤ) ∧
        30 < l.getD (⌊fF * (a : ℚ) * (N : ℚ) / (SR : ℚ)⌋).toNat 0
    · rw [if_pos hc] at hb
      cases hb
      rfl
    · rw [if_neg hc] at hb
      cases hb
  have hba' : b'.order = a' := by
    by_cases hc : ⌊fF * (a' : ℚ) * (N : ℚ) / (SR : ℚ)⌋ < (l.length : ℤ) ∧
        30 < l.getD (⌊fF * (a' : ℚ) * (N : ℚ) / (SR : ℚ)⌋).toNat 0
    · rw [if_pos hc] at hb'
      cases hb'
      rfl
    · rw [if_neg hc] at hb'
      cases hb'
  rw [hba, hba']
  exact hlt

/-- The synthetic array of the spec's harmonic test: length 50, an isolated
peak of value 200 at the bin of 100 Hz (bin 10 at SR = 20480, N = 2048) and
value 40 at the bins of 200/300/400 Hz (bins 20, 30, 40). -/
def synthArr : List ℤ :=
  ((((List.replicate 50 0).set 10 200).set 20 40).set 30 40).set 40 40

set_option maxRecDepth 16000 in
lemma synth_getD :
    synthArr.length = 50 ∧ (peakScan synthArr).2 = 10 ∧
    (fundScan synthArr 20480 2048).2 = 10 ∧
    synthArr.getD 20 0 = 40 ∧ synthArr.getD 30 0 = 40 ∧ synthArr.getD 40 0 = 40 := by
  refine ⟨by decide, by decide, by decide, by decide, by decide, by decide⟩

lemma synth_harmonics : harmonicScan synthArr 100 20480 2048 =
    [Harmonic.mk 2 200 40, Harmonic.mk 3 300 40, Harmonic.mk 4 400 40] := by
  have f2 : ⌊(100 : ℚ) * ((2 : ℕ) : ℚ) * ((2048 : ℕ) : ℚ) / ((20480 : ℕ) : ℚ)⌋ = (20 : ℤ) := by
    norm_num
  have f3 : ⌊(100 : ℚ) * ((3 : ℕ) : ℚ) * ((2048 : ℕ) : ℚ) / ((20480 : ℕ) : ℚ)⌋ = (30 : ℤ) := by
    norm_num
  have f4 : ⌊(100 : ℚ) * ((4 : ℕ) : ℚ) * ((2048 : ℕ) : ℚ) / ((20480 : ℕ) : ℚ)⌋ = (40 : ℤ) := by
    norm_num
  unfold harmonicScan
  rw [if_pos (by norm_num : (10 : ℚ) < 100)]
  rw [List.foldl_cons, List.foldl_cons, List.foldl_cons, List.foldl_nil]
  rw [f2, f3, f4, synth_getD.1]
  rw [if_pos (show (20 : ℤ) < ((50 : ℕ) : ℤ) by norm_num),
    if_pos (show (30 : ℤ) < ((50 : ℕ) : ℤ) by norm_num),
    if_pos (show (40 : ℤ) < ((50 : ℕ) : ℤ) by norm_num)]
  rw [show (20 : ℤ).toNat = 20 from rfl, show (30 : ℤ).toNat = 30 from rfl,
    show (40 : ℤ).toNat = 40 from rfl]
  rw [synth_getD.2.2.2.1, synth_getD.2.2.2.2.1, synth_getD.2.2.2.2.2]
  norm_num

/-- C6: harmonics are computed only when a fundamental was found; for orders
2..4 an entry `{order, order * fundamentalFreq, magnitudes[harmonicBin]}` is
emitted exactly when `harmonicBin = floor(order * fundamentalFreq * N / SR)`
is in range with magnitude above 30, the list ascending in order; the spec's
synthetic single-peak array yields fundamental 100 Hz and harmonics of
orders 2, 3, 4. -/
theorem harmonics_contract (l : List ℤ) (SR N : ℕ) (s : Analysis)
    (hs : calculateFrequencyAnalysis l SR N = some s) :
    (s.fundamental = none → s.harmonics = []) ∧
    (∀ fF, s.fundamental = some fF →
      s.harmonics = harmonicsSpec l fF SR N ∧
      s.harmonics.Pairwise (fun a b => a.order < b.order)) ∧
    calculateFrequencyAnalysis synthArr 20480 2048 =
      some { topResonating := 100, fundamental := some 100,
             harmonics := [Harmonic.mk 2 200 40, Harmonic.mk 3 300 40,
               Harmonic.mk 4 400 40] } := by
  have hlen : l.length ≠ 0 := by
    intro h
    unfold calculateFrequencyAnalysis at hs
    rw [if_pos h] at hs
    exact Option.noConfusion hs
  have hseq := Option.some.inj ((analysis_some SR N hlen (l := l)).symm.trans hs)
  refine ⟨?_, ?_, ?_⟩
  · intro hnone
    rw [← hseq] at hnone ⊢
    show harmonicScan l (binFreqQ (fundScan l SR N).2 SR N) SR N = []
    by_cases h10 : 10 < binFreqQ (fundScan l SR N).2 SR N
    · have hcontra : (if 10 < binFreqQ (fundScan l SR N).2 SR N then
          some (binFreqQ (fundScan l SR N).2 SR N) else none) = none := hnone
      rw [if_pos h10] at hcontra
      exact Option.noConfusion hcontra
    · unfold harmonicScan
      rw [if_neg h10]
  · intro fF hsome
    rw [← hseq] at hsome ⊢
    by_cases h10 : 10 < binFreqQ (fundScan l SR N).2 SR N
    · have hif : (if 10 < binFreqQ (fundScan l SR N).2 SR N then
          some (binFreqQ (fundScan l SR N).2 SR N) else none) = some fF := hsome
      rw [if_pos h10] at hif
      have hfF : binFreqQ (fundScan l SR N).2 SR N = fF := Option.some.inj hif
      show harmonicScan l (binFreqQ (fundScan l SR N).2 SR N) SR N = _ ∧
        (harmonicScan l (binFreqQ (fundScan l SR N).2 SR N) SR N).Pairwise _
      rw [hfF, harmonicScan_eq_spec l fF SR N (hfF ▸ h10)]
      exact ⟨rfl, harmonicsSpec_sorted l fF SR N⟩
    · have hif : (if 10 < binFreqQ (fundScan l SR N).2 SR N then
          some (binFreqQ (fundScan l SR N).2 SR N) else none) = some fF := hsome
      rw [if_neg h10] at hif
      exact absurd hif (Option.noConfusion)
  · have hlenne : synthArr.length ≠ 0 := by rw [synth_getD.1]; norm_num
    have hbf : binFreqQ 10 20480 2048 = 100 := by norm_num [binFreqQ]
    have h := analysis_some (l := synthArr) 20480 2048 hlenne
    rw [synth_getD.2.1, synth_getD.2.2.1, hbf] at h
    rw [if_pos (by norm_num : (10 : ℚ) < 100)] at h
    rw [synth_harmonics] at h
    exact h

/-- The summary the analyzer produces on the synthetic array. -/
def synthAnalysis : Analysis :=
  { topResonating := binFreqQ (peakScan synthArr).2 20480 2048,
    fundamental :=
      if 10 < binFreqQ (fundScan synthArr 20480 2048).2 20480 2048 then
        some (binFreqQ (fundScan synthArr 20480 2048).2 20480 2048)
      else none,
    harmonics :=
      harmonicScan synthArr (binFreqQ (fundScan synthArr 20480 2048).2 20480 2048)
        20480 2048 }

/-- Witness for C6 at the synthetic single-peak array. -/
theorem harmonics_contract_witness :
    (synthAnalysis.fundamental = none → synthAnalysis.harmonics = []) ∧
    (∀ fF, synthAnalysis.fundamental = some fF →
      synthAnalysis.harmonics = harmonicsSpec synthArr fF 20480 2048 ∧
      synthAnalysis.harmonics.Pairwise (fun a b => a.order < b.order)) ∧
    calculateFrequencyAnalysis synthArr 20480 2048 =
      some { topResonating := 100, fundamental := some 100,
             harmonics := [Harmonic.mk 2 200 40, Harmonic.mk 3 300 40,
               Harmonic.mk 4 400 40] } :=
  harmonics_contract synthArr 20480 2048 synthAnalysis
    (analysis_some 20480 2048 (by rw [synth_getD.1]; norm_num))

/-! ### ReplayEngine frame selection (App.jsx lines 449-458 and 545-550) -/

structure RFrame where
  t : ℚ
  freq : List ℤ
  timeDomain : List ℤ
  deriving DecidableEq

/-- The selection loop of `drawReplay` (App.jsx 452-458): starting from the
last frame as default, take the first frame whose `t` is at least `elapsed`
(the `break`). -/
def firstFrameGE : List RFrame → ℚ → RFrame → RFrame
  | [], _, dflt => dflt
  | f :: rest, elapsed, dflt => if f.t ≥ elapsed then f else firstFrameGE rest elapsed dflt

/-- Frame selection of one replay tick; `none` corresponds to the guard on an
empty frame list (App.jsx 424), under which `drawReplay` never runs. -/
def selectReplayFrame (frames : List RFrame) (elapsed : ℚ) : Option RFrame :=
  match frames.getLast? with
  | none => none
  | some lastFrame => some (firstFrameGE frames elapsed lastFrame)

/-- `frames[frames.length - 1].t`, with 0 for the (guarded-away) empty list. -/
def lastFrameT (frames : List RFrame) : ℚ := ((frames.getLast?).map RFrame.t).getD 0

/-- The continuation test of App.jsx 546: replay schedules another tick iff
`elapsed <= frames[frames.length - 1].t`; otherwise it transitions to Idle. -/
def replayContinues (frames : List RFrame) (elapsed : ℚ) : Prop :=
  elapsed ≤ lastFrameT frames

instance (frames : List RFrame) (elapsed : ℚ) : Decidable (replayContinues frames elapsed) := by
  unfold replayContinues
  infer_instance

lemma firstFrameGE_spec (elapsed : ℚ) : ∀ (frames : List RFrame) (dflt : RFrame),
    (∃ ys zs f, frames = ys ++ f :: zs ∧ (∀ y ∈ ys, y.t < elapsed) ∧ elapsed ≤ f.t ∧
      firstFrameGE frames elapsed dflt = f) ∨
    ((∀ g ∈ frames, g.t < elapsed) ∧ firstFrameGE frames elapsed dflt = dflt) := by
  intro frames
  induction frames with
  | nil =>
    intro dflt
    right
    exact ⟨by simp, rfl⟩
  | cons f rest ih =>
    intro dflt
    by_cases h : f.t ≥ elapsed
    · left
      exact ⟨[], rest, f, rfl, by simp, h, by simp only [firstFrameGE, if_pos h]⟩
    · have hstep : firstFrameGE (f :: rest) elapsed dflt = firstFrameGE rest elapsed dflt := by
        simp only [firstFrameGE, if_neg h]
      rcases ih dflt with ⟨ys, zs, g, hdec, hys, hge, heq⟩ | ⟨hall, heq⟩
      · left
        refine ⟨f :: ys, zs, g, by rw [List.cons_append, ← hdec], ?_, hge, by rw [hstep, heq]⟩
        intro y hy
        rcases List.mem_cons.mp hy with rfl | hy'
        · exact not_le.mp h
        · exact hys y hy'
      · right
        refine ⟨?_, by rw [hstep, heq]⟩
        intro g hg
        rcases List.mem_cons.mp hg with rfl | hg'
        · exact not_le.mp h
        · exact hall g hg'

lemma sorted_last_max : ∀ (frames : List RFrame),
    frames.Pairwise (fun a b => a.t ≤ b.t) →
    ∀ lf, frames.getLast? = some lf → ∀ g ∈ frames, g.t ≤ lf.t := by
  intro frames
  induction frames with
  | nil =>
    intro _ lf h
    simp at h
  | cons f rest ih =>
    intro hpw lf hlast g hg
    cases rest with
    | nil =>
      have hfl : f = lf := by
        simpa using hlast
      rcases List.mem_cons.mp hg with rfl | hg'
      · rw [hfl]
      · simp at hg'
    | cons f2 rest2 =>
      have hlast' : (f2 :: rest2).getLast? = some lf := by
        rwa [List.getLast?_cons_cons] at hlast
      have hlfmem : lf ∈ f2 :: rest2 := by
        obtain ⟨hne, hx⟩ := List.mem_getLast?_eq_getLast hlast'
        rw [hx]
        exact List.getLast_mem hne
      rcases List.mem_cons.mp hg with rfl | hg'
      · exact (List.pairwise_cons.mp hpw).1 lf hlfmem
      · exact ih (List.pairwise_cons.mp hpw).2 lf hlast' g hg'

/-- C2: each replay tick selects the first frame in chronological order whose
`relativeTimeMs` is at least the elapsed time; if none qualifies the last
frame is selected, and the tick loop continues exactly while some frame's
timestamp is still ahead (so playback ends once elapsed exceeds the last
timestamp).  For frames at t = [0, 100, 200]: elapsed 150 selects the frame
at 200, elapsed 250 selects the frame at 200 with playback complete. -/
theorem replay_frame_selection (frames : List RFrame) (elapsed : ℚ)
    (hne : frames ≠ []) (hsort : frames.Pairwise (fun a b => a.t ≤ b.t)) :
    (∃ f, selectReplayFrame frames elapsed = some f ∧ f ∈ frames ∧
      ((∃ g ∈ frames, elapsed ≤ g.t) →
        elapsed ≤ f.t ∧ ∀ g ∈ frames, elapsed ≤ g.t → f.t ≤ g.t) ∧
      ((∀ g ∈ frames, g.t < elapsed) → frames.getLast? = some f)) ∧
    (replayContinues frames elapsed ↔ ∃ g ∈ frames, elapsed ≤ g.t) ∧
    (selectReplayFrame [RFrame.mk 0 [] [], RFrame.mk 100 [] [], RFrame.mk 200 [] []] 150 =
        some (RFrame.mk 200 [] []) ∧
      selectReplayFrame [RFrame.mk 0 [] [], RFrame.mk 100 [] [], RFrame.mk 200 [] []] 250 =
        some (RFrame.mk 200 [] []) ∧
      ¬ replayContinues [RFrame.mk 0 [] [], RFrame.mk 100 [] [], RFrame.mk 200 [] []] 250 ∧
      replayContinues [RFrame.mk 0 [] [], RFrame.mk 100 [] [], RFrame.mk 200 [] []] 150) := by
  obtain ⟨lf, hlf⟩ : ∃ lf, frames.getLast? = some lf :=
    ⟨frames.getLast hne, List.getLast?_eq_getLast_of_ne_nil hne⟩
  have hlfmem : lf ∈ frames := by
    obtain ⟨hne', hx⟩ := List.mem_getLast?_eq_getLast hlf
    rw [hx]
    exact List.getLast_mem hne'
  have hmax : ∀ g ∈ frames, g.t ≤ lf.t := sorted_last_max frames hsort lf hlf
  have hsel : selectReplayFrame frames elapsed = some (firstFrameGE frames elapsed lf) := by
    unfold selectReplayFrame
    rw [hlf]
  refine ⟨?_, ?_, by decide, by decide, by decide, by decide⟩
  · rcases firstFrameGE_spec elapsed frames lf with
      ⟨ys, zs, f, hdec, hys, hge, heq⟩ | ⟨hall, heq⟩
    · refine ⟨f, by rw [hsel, heq], ?_, ?_, ?_⟩
      · rw [hdec]
        exact List.mem_append.mpr (Or.inr (List.mem_cons_self _ _))
      · intro _
        refine ⟨hge, ?_⟩
        intro g hg hgge
        rw [hdec] at hg
        rcases List.mem_append.mp hg with hgy | hgbz
        · exact absurd hgge (not_le.mpr (hys g hgy))
        · rcases List.mem_cons.mp hgbz with rfl | hgz
          · exact le_refl _
          · rw [hdec] at hsort
            obtain ⟨_, hpw2, _⟩ := List.pairwise_append.mp hsort
            exact (List.pairwise_cons.mp hpw2).1 g hgz
      · intro hallcontra
        have : elapsed ≤ f.t := hge
        have hfmem : f ∈ frames := by
          rw [hdec]
          exact List.mem_append.mpr (Or.inr (List.mem_cons_self _ _))
        exact absurd this (not_le.mpr (hallcontra f hfmem))
    · refine ⟨lf, by rw [hsel, heq], hlfmem, ?_, fun _ => hlf⟩
      intro ⟨g, hg, hgge⟩
      exact absurd hgge (not_le.mpr (hall g hg))
  · constructor
    · intro hcont
      refine ⟨lf, hlfmem, ?_⟩
      unfold replayContinues lastFrameT at hcont
      rw [hlf] at hcont
      exact hcont
    · intro ⟨g, hg, hgge⟩
      unfold replayContinues lastFrameT
      rw [hlf]
      exact le_trans hgge (hmax g hg)

/-- Witness for C2 at the spec's three-frame recording and elapsed 150. -/
theorem replay_frame_selection_witness :
    (∃ f, selectReplayFrame [RFrame.mk 0 [] [], RFrame.mk 100 [] [], RFrame.mk 200 [] []] 150 =
        some f ∧ f ∈ [RFrame.mk 0 [] [], RFrame.mk 100 [] [], RFrame.mk 200 [] []] ∧
      ((∃ g ∈ [RFrame.mk 0 [] [], RFrame.mk 100 [] [], RFrame.mk 200 [] []], (150 : ℚ) ≤ g.t) →
        (150 : ℚ) ≤ f.t ∧ ∀ g ∈ [RFrame.mk 0 [] [], RFrame.mk 100 [] [], RFrame.mk 200 [] []],
          (150 : ℚ) ≤ g.t → f.t ≤ g.t) ∧
      ((∀ g ∈ [RFrame.mk 0 [] [], RFrame.mk 100 [] [], RFrame.mk 200 [] []], g.t < (150 : ℚ)) →
        ([RFrame.mk 0 [] [], RFrame.mk 100 [] [], RFrame.mk 200 [] []]).getLast? = some f)) ∧
    (replayContinues [RFrame.mk 0 [] [], RFrame.mk 100 [] [], RFrame.mk 200 [] []] 150 ↔
      ∃ g ∈ [RFrame.mk 0 [] [], RFrame.mk 100 [] [], RFrame.mk 200 [] []], (150 : ℚ) ≤ g.t) ∧
    (selectReplayFrame [RFrame.mk 0 [] [], RFrame.mk 100 [] [], RFrame.mk 200 [] []] 150 =
        some (RFrame.mk 200 [] []) ∧
      selectReplayFrame [RFrame.mk 0 [] [], RFrame.mk 100 [] [], RFrame.mk 200 [] []] 250 =
        some (RFrame.mk 200 [] []) ∧
      ¬ replayContinues [RFrame.mk 0 [] [], RFrame.mk 100 [] [], RFrame.mk 200 [] []] 250 ∧
      replayContinues [RFrame.mk 0 [] [], RFrame.mk 100 [] [], RFrame.mk 200 [] []] 150) :=
  replay_frame_selection [RFrame.mk 0 [] [], RFrame.mk 100 [] [], RFrame.mk 200 [] []] 150
    (by decide) (by decide)

/-! ### RecordingBuffer finalization (App.jsx lines 562-600) and capture
(App.jsx lines 316-328) -/

structure Recording where
  id : String
  label : String
  createdAt : String
  durationMs : ℚ
  nyquistHz : ℚ
  sampleRate : ℚ
  fftSize : ℚ
  bufferLength : ℚ
  frames : List RFrame
  deriving DecidableEq

/-- The stop branch of `handleToggleRecording` (App.jsx 574-599): with no
captured frames nothing happens; otherwise a Recording with
`durationMs = frames[frames.length - 1].t` is prepended to the collection.
`createdAtStr`/`idStamp` stand for the wall-clock values `new Date()`
provides. -/
def stopRecording (frames : List RFrame) (nyquistHz sampleRate fftSize bufferLength : ℚ)
    (createdAtStr idStamp : String) (prev : List Recording) : List Recording :=
  if frames = [] then prev
  else
    Recording.mk (idStamp ++ "-" ++ toString (prev.length + 1))
      ("Recording " ++ toString (prev.length + 1)) createdAtStr
      (lastFrameT frames) nyquistHz sampleRate fftSize bufferLength frames :: prev

/-- The capture loop (App.jsx 317-328): on the first tick the start time is
fixed to that tick's clock value, and every tick appends a frame stamped
`now - recordingStart`.  A tick is `(now, magnitudes, timeDomain)`. -/
def captureFrames (ticks : List (ℚ × List ℤ × List ℤ)) : List RFrame :=
  match ticks with
  | [] => []
  | (t0, _, _) :: _ => ticks.map (fun tick => RFrame.mk (tick.1 - t0) tick.2.1 tick.2.2)

/-- C7: stopping with zero captured frames changes nothing; stopping with at
least one captured frame prepends exactly one Recording whose `durationMs`
is the last frame's `relativeTimeMs` and whose frames are the captured ones;
capture at non-decreasing clock times yields non-decreasing frame times; the
spec's three ticks at 0/33/66 ms give one Recording of duration 66 ms with 3
ordered frames. -/
theorem recording_finalization (frames : List RFrame)
    (nyq sr fft buf : ℚ) (ca idp : String) (prev : List Recording)
    (ticks : List (ℚ × List ℤ × List ℤ)) (hne : frames ≠ [])
    (hticks : (ticks.map Prod.fst).Pairwise (· ≤ ·)) :
    (∀ prev' : List Recording, stopRecording [] nyq sr fft buf ca idp prev' = prev') ∧
    (∃ newRec, stopRecording frames nyq sr fft buf ca idp prev = newRec :: prev ∧
      newRec.durationMs = lastFrameT frames ∧ newRec.frames = frames) ∧
    ((captureFrames ticks).map RFrame.t).Pairwise (· ≤ ·) ∧
    (∃ newRec, stopRecording (captureFrames [((0 : ℚ), [], []), (33, [], []), (66, [], [])])
        nyq sr fft buf ca idp [] = [newRec] ∧
      newRec.durationMs = 66 ∧ newRec.frames.length = 3 ∧
      (newRec.frames.map RFrame.t).Pairwise (· ≤ ·)) := by
  have hcap : captureFrames [((0 : ℚ), [], []), (33, [], []), (66, [], [])] =
      [RFrame.mk 0 [] [], RFrame.mk 33 [] [], RFrame.mk 66 [] []] := by
    unfold captureFrames
    norm_num
  refine ⟨fun prev' => rfl, ?_, ?_, ?_⟩
  · refine ⟨Recording.mk (idp ++ "-" ++ toString (prev.length + 1))
      ("Recording " ++ toString (prev.length + 1)) ca (lastFrameT frames)
      nyq sr fft buf frames, ?_, rfl, rfl⟩
    unfold stopRecording
    rw [if_neg hne]
  · cases ticks with
    | nil =>
      simp [captureFrames]
    | cons t rest =>
      obtain ⟨t0, fr0, td0⟩ := t
      show ((((t0, fr0, td0) :: rest).map
        (fun tick => RFrame.mk (tick.1 - t0) tick.2.1 tick.2.2)).map RFrame.t).Pairwise _
      rw [List.map_map, List.pairwise_map]
      rw [List.pairwise_map] at hticks
      refine hticks.imp ?_
      intro a b hab
      simpa using sub_le_sub_right hab t0
  · rw [hcap]
    refine ⟨Recording.mk (idp ++ "-" ++ toString 1) ("Recording " ++ toString 1) ca 66
      nyq sr fft buf [RFrame.mk 0 [] [], RFrame.mk 33 [] [], RFrame.mk 66 [] []],
      ?_, rfl, rfl, ?_⟩
    · unfold stopRecording
      rw [if_neg (by simp)]
      rfl
    · show ([RFrame.mk 0 [] [], RFrame.mk 33 [] [], RFrame.mk 66 [] []].map RFrame.t).Pairwise _
      decide

/-- Witness for C7: a one-frame capture at three clock ticks 0/33/66 ms. -/
theorem recording_finalization_witness :
    (∀ prev' : List Recording, stopRecording [] 20000 44100 2048 1024 "t" "id" prev' = prev') ∧
    (∃ newRec, stopRecording [RFrame.mk 5 [] []] 20000 44100 2048 1024 "t" "id" [] =
        newRec :: [] ∧
      newRec.durationMs = lastFrameT [RFrame.mk 5 [] []] ∧ newRec.frames = [RFrame.mk 5 [] []]) ∧
    ((captureFrames [((0 : ℚ), [], []), (33, [], []), (66, [], [])]).map RFrame.t).Pairwise
      (· ≤ ·) ∧
    (∃ newRec, stopRecording (captureFrames [((0 : ℚ), [], []), (33, [], []), (66, [], [])])
        20000 44100 2048 1024 "t" "id" [] = [newRec] ∧
      newRec.durationMs = 66 ∧ newRec.frames.length = 3 ∧
      (newRec.frames.map RFrame.t).Pairwise (· ≤ ·)) :=
  recording_finalization [RFrame.mk 5 [] []] 20000 44100 2048 1024 "t" "id" []
    [((0 : ℚ), [], []), (33, [], []), (66, [], [])] (by simp)
    (by decide)

/-! ### JSON import (App.jsx lines 703-754) -/

structure RawRecording where
  label : Option String
  createdAt : Option String
  durationMs : Option ℚ
  nyquistHz : Option ℚ
  sampleRate : Option ℚ
  fftSize : Option ℚ
  bufferLength : Option ℚ
  frames : Option (List RFrame)
  deriving DecidableEq

/-- The live ref defaults substituted for missing/invalid numeric fields. -/
structure LiveDefaults where
  nyquistHz : ℚ
  sampleRate : ℚ
  fftSize : ℚ
  bufferLength : ℚ
  deriving DecidableEq

/-- `typeof x === 'number' && x > 0 ? x : dflt`; a `none` field stands for a
missing field or one of non-number type. -/
def numOrDefault (field : Option ℚ) (dflt : ℚ) : ℚ :=
  match field with
  | some q => if 0 < q then q else dflt
  | none => dflt

/-- `x || dflt` for string fields (the empty string is falsy in JS). -/
def strOrDefault (field : Option String) (dflt : String) : String :=
  match field with
  | some sv => if sv = "" then dflt else sv
  | none => dflt

/-- One entry of the `parsed.map` of `handleImportFile` (App.jsx 715-744).
`rec.frames = none` stands for a `frames` field that is not an array
(`Array.isArray` fails): the source substitutes `[]`, it does not skip the
entry.  `nowStr`/`idStamp` stand for the wall-clock and random id parts. -/
def importEntry (defaults : LiveDefaults) (nowStr idStamp : String) (idx : ℕ)
    (rec : RawRecording) : Recording :=
  Recording.mk (idStamp ++ "-" ++ toString idx)
    (strOrDefault rec.label ("Imported recording " ++ toString (idx + 1)))
    (strOrDefault rec.createdAt nowStr)
    (match rec.durationMs with
      | some q => if 0 < q then q else lastFrameT (rec.frames.getD [])
      | none => lastFrameT (rec.frames.getD []))
    (numOrDefault rec.nyquistHz defaults.nyquistHz)
    (numOrDefault rec.sampleRate defaults.sampleRate)
    (numOrDefault rec.fftSize defaults.fftSize)
    (numOrDefault rec.bufferLength defaults.bufferLength)
    (rec.frames.getD [])

/-- `handleImportFile` after parsing (App.jsx 709-745): a non-array JSON
document (`parsed = none`) is ignored; an array has every entry mapped
through `importEntry` and the results prepended to the collection. -/
def importRecordings (parsed : Option (List RawRecording)) (defaults : LiveDefaults)
    (nowStr idStamp : String) (prev : List Recording) : List Recording :=
  match parsed with
  | none => prev
  | some entries =>
    (entries.enum.map (fun p => importEntry defaults nowStr idStamp p.1 p.2)) ++ prev

/-- A well-formed recording entry. -/
def goodEntry : RawRecording :=
  RawRecording.mk (some "good") (some "now") (some 100) (some 20000) (some 44100)
    (some 2048) (some 1024) (some [RFrame.mk 0 [] [], RFrame.mk 100 [] []])

/-- An entry whose `frames` field is not an array. -/
def badEntry : RawRecording :=
  RawRecording.mk (some "bad") (some "now") (some 100) (some 20000) (some 44100)
    (some 2048) (some 1024) none

/-- C8 counterexample: the claim says an entry with a non-array `frames`
field is skipped, so a batch of one good and one bad entry should add
exactly one Recording; the source imports both (the bad one with empty
frames), adding two. -/
theorem import_skips_nonarray_false :
    (importRecordings (some [goodEntry, badEntry]) (LiveDefaults.mk 20000 44100 2048 1024)
      "now" "id" []).length = 2 ∧
    ¬ (importRecordings (some [goodEntry, badEntry]) (LiveDefaults.mk 20000 44100 2048 1024)
      "now" "id" []).length = 1 := by
  have h2 : (importRecordings (some [goodEntry, badEntry])
      (LiveDefaults.mk 20000 44100 2048 1024) "now" "id" []).length = 2 := rfl
  refine ⟨h2, ?_⟩
  intro h1
  rw [h2] at h1
  exact absurd h1 (by norm_num)

/-- C8 (amended): import does not crash on an entry whose `frames` field is
not an array, but it does not skip it either: the entry is imported with an
empty frame list, every entry of the batch is imported, and a batch of one
good and one bad entry adds exactly two Recordings. -/
theorem import_nonarray_frames (parsed : List RawRecording) (defaults : LiveDefaults)
    (nowStr idStamp : String) (prev : List Recording) :
    (importRecordings (some parsed) defaults nowStr idStamp prev).length =
      parsed.length + prev.length ∧
    (∀ rec : RawRecording, ∀ idx : ℕ, rec.frames = none →
      (importEntry defaults nowStr idStamp idx rec).frames = []) ∧
    (∀ rec : RawRecording, ∀ idx : ℕ, ∀ frs, rec.frames = some frs →
      (importEntry defaults nowStr idStamp idx rec).frames = frs) ∧
    ((importRecordings (some [goodEntry, badEntry]) defaults nowStr idStamp []).length = 2 ∧
      (importEntry defaults nowStr idStamp 1 badEntry).frames = [] ∧
      (importEntry defaults nowStr idStamp 0 goodEntry).frames =
        [RFrame.mk 0 [] [], RFrame.mk 100 [] []]) := by
  refine ⟨?_, ?_, ?_, rfl, rfl, rfl⟩
  · show ((parsed.enum.map _) ++ prev).length = parsed.length + prev.length
    rw [List.length_append, List.length_map, List.enum_length]
  · intro rec idx h
    show rec.frames.getD [] = []
    rw [h]
    rfl
  · intro rec idx frs h
    show rec.frames.getD [] = frs
    rw [h]
    rfl

/-- Witness for C8's amended statement at the good/bad two-entry batch. -/
theorem import_nonarray_frames_witness :
    (importRecordings (some [goodEntry, badEntry]) (LiveDefaults.mk 20000 44100 2048 1024)
      "now" "id" []).length = [goodEntry, badEntry].length + ([] : List Recording).length ∧
    (importEntry (LiveDefaults.mk 20000 44100 2048 1024) "now" "id" 1 badEntry).frames = [] ∧
    (importEntry (LiveDefaults.mk 20000 44100 2048 1024) "now" "id" 0 goodEntry).frames =
      [RFrame.mk 0 [] [], RFrame.mk 100 [] []] := by
  obtain ⟨h1, h2, h3, _⟩ := import_nonarray_frames [goodEntry, badEntry]
    (LiveDefaults.mk 20000 44100 2048 1024) "now" "id" []
  exact ⟨h1, h2 badEntry 1 rfl, h3 goodEntry 0 [RFrame.mk 0 [] [], RFrame.mk 100 [] []] rfl⟩

/-! ### Hover handlers (App.jsx lines 602-642) -/

/-- `Math.round` for the (non-negative, clamped) hover coordinate. -/
def jsRound (x : ℚ) : ℤ := ⌊x + 1 / 2⌋

/-- Translation of `handleSpectrumHover` (App.jsx 620-642): clamp the x
coordinate to the canvas, recover the drawn bin via the plot stride
`ceil(bufferLength / width)`, report the bin-center frequency clamped to
[0, 20000].  The `if _ = 0` branches mirror the `|| dflt` fallbacks. -/
def handleSpectrumHover (offsetX : ℚ) (canvasWidth bufLen sr fft : ℕ) : ℚ :=
  let width := if canvasWidth = 0 then 1 else canvasWidth
  let bufferLength := if bufLen = 0 then 1024 else bufLen
  let sampleRate := if sr = 0 then 44100 else sr
  let fftSize := if fft = 0 then 2048 else fft
  let clampedX := min (max offsetX 0) ((width : ℚ) - 1)
  let step : ℤ := ⌈(bufferLength : ℚ) / (width : ℚ)⌉
  let pixelIndex : ℤ := jsRound clampedX
  let binIndex : ℤ := min ((bufferLength : ℤ) - 1) (pixelIndex * step)
  let freq : ℚ := ((binIndex : ℚ) + 0.5) * (sampleRate : ℚ) / (fftSize : ℚ)
  max 0 (min 20000 freq)

/-- Modelled from the claim's words: the spectrum hover frequency is the
bin-center frequency `(b + 0.5) * SR / N` of
`b = min (L - 1) (round (clamp x 0 (W - 1)) * ceil (L / W))`,
clamped to [0, 20000]. -/
def spectrumHoverSpec (offsetX : ℚ) (canvasWidth bufLen sr fft : ℕ) : ℚ :=
  max 0 (min 20000
    (((min ((bufLen : ℤ) - 1)
        (jsRound (min (max offsetX 0) ((canvasWidth : ℚ) - 1)) *
          ⌈(bufLen : ℚ) / (canvasWidth : ℚ)⌉) : ℤ) + 0.5) *
      (sr : ℚ) / (fft : ℚ)))

/-- Translation of `handleSpectrogramHover` (App.jsx 602-618): clamp the y
coordinate, map it back to a frequency with `yToFreq`, clamp to [5, 20000];
`none` on a degenerate canvas (`height - 1 <= 0`). -/
noncomputable def handleSpectrogramHover (offsetY : ℚ) (canvasHeight : ℕ) (useLog : Bool) :
    Option ℝ :=
  let height := if canvasHeight = 0 then 1 else canvasHeight
  let clampedY : ℝ := min (max (offsetY : ℚ) 0 : ℚ) ((height : ℝ) - 1)
  if ((height : ℝ) - 1) ≤ 0 then none
  else some (max 5 (min 20000 (yToFreq clampedY height useLog)))

/-- C10: the spectrum-plot hover reports the bin-center frequency
`(b + 0.5) * SR / N` of bin `b = min (L-1, round(clamp(x,0,W-1)) * ceil(L/W))`
clamped to [0, 20000] (lower clamp 0), while the spectrogram hover clamps its
result to [5, 20000] (lower clamp 5). -/
theorem spectrum_hover_contract (x : ℚ) (W L SR N : ℕ) (y : ℚ) (H : ℕ) (m : Bool)
    (hW : 0 < W) (hL : 0 < L) (hSR : 0 < SR) (hN : 0 < N) (hH : 1 < H) :
    handleSpectrumHover x W L SR N = spectrumHoverSpec x W L SR N ∧
    0 ≤ handleSpectrumHover x W L SR N ∧ handleSpectrumHover x W L SR N ≤ 20000 ∧
    ∃ r, handleSpectrogramHover y H m = some r ∧ 5 ≤ r ∧ r ≤ 20000 := by
  refine ⟨?_, ?_, ?_, ?_⟩
  · unfold handleSpectrumHover spectrumHoverSpec
    rw [if_neg (Nat.pos_iff_ne_zero.mp hW), if_neg (Nat.pos_iff_ne_zero.mp hL),
      if_neg (Nat.pos_iff_ne_zero.mp hSR), if_neg (Nat.pos_iff_ne_zero.mp hN)]
  · exact le_max_left 0 _
  · exact max_le (by norm_num) (min_le_left _ _)
  · have hHne : H ≠ 0 := by omega
    have hHgt : ¬(((H : ℝ) - 1) ≤ 0) := by
      push_neg
      have : (2 : ℝ) ≤ (H : ℝ) := by exact_mod_cast hH
      linarith
    refine ⟨max 5 (min 20000
      (yToFreq (min (max ((y : ℚ) : ℝ) 0 : ℝ) ((H : ℝ) - 1)) H m)), ?_, le_max_left 5 _,
      max_le (by norm_num) (min_le_left _ _)⟩
    unfold handleSpectrogramHover
    rw [if_neg hHne]
    rw [if_neg hHgt]
    norm_num

/-- Witness for C10 at x = 100 on a 512-wide spectrum canvas and y = 10 on a
320-high spectrogram canvas. -/
theorem spectrum_hover_contract_witness :
    handleSpectrumHover 100 512 1024 44100 2048 = spectrumHoverSpec 100 512 1024 44100 2048 ∧
    0 ≤ handleSpectrumHover 100 512 1024 44100 2048 ∧
    handleSpectrumHover 100 512 1024 44100 2048 ≤ 20000 ∧
    ∃ r, handleSpectrogramHover 10 320 true = some r ∧ 5 ≤ r ∧ r ≤ 20000 :=
  spectrum_hover_contract 100 512 1024 44100 2048 10 320 true (by norm_num) (by norm_num)
    (by norm_num) (by norm_num) (by norm_num)

end FreqApp
